import Mathlib

/-!
Verification development for the WordRoom application (`src/WordRoom.py`).

The UI script `WordRoom.py` is embedded shallowly: each view class becomes a
state record, each handler a state-transition function that also returns the
row-mutation or selection events it sends to the view layer.  The word store
(`vocabulary.Vocabulary`, whose module is not among the sources) is modelled
from the specification, as noted on each of its operations.
-/

namespace WordRoom

/-- Layout-mode constant `AdaptiveView.COMPACT` (src line 353). -/
def COMPACT : Nat := 1

/-- Layout-mode constant `AdaptiveView.REGULAR` (src line 354). -/
def REGULAR : Nat := 2

/-- A word/notes pair of the store.  Modelled from the spec: an Entry is
`{ word, notes }` with the word kept in display case (§3). -/
structure Entry where
  word : String
  notes : String
deriving DecidableEq, Repr

/-- Modelled from the spec: the case-folded identity key of a word (§3,
glossary); `vocabulary.py` is absent from the sources. -/
def foldKey (s : String) : String := String.mk (s.toList.map Char.toLower)

/-- Modelled from the spec: the word store state — entries, active query text
and the word/full-text scope toggle (`vocabulary.Vocabulary`). -/
structure Vocabulary where
  entries : List Entry
  query : String
  fulltext_toggle : Bool
deriving DecidableEq, Repr

/-- Modelled from the spec: case-insensitive substring containment used by the
search engine (§4.2). -/
def substrFold (needle hay : String) : Bool :=
  decide ((foldKey needle).toList <:+: (foldKey hay).toList)

/-- Modelled from the spec: whether an entry passes the active query filter —
word scope matches the word, note scope matches the notes body (§4.2). -/
def entryMatches (v : Vocabulary) (e : Entry) : Bool :=
  if v.query = "" then true
  else if v.fulltext_toggle then substrFold v.query e.notes
  else substrFold v.query e.word

/-- Modelled from the spec: `Vocabulary.list_words(section)` — the ordered,
query-filtered words of a store section, 0 = annotated (non-empty notes),
1 = history (empty notes) (§3). -/
def list_words (v : Vocabulary) (sec : Nat) : List String :=
  (v.entries.filter fun e =>
      entryMatches v e && (if sec = 0 then e.notes != "" else e.notes == "")).map
    Entry.word

/-- Modelled from the spec: `Vocabulary.get_notes(word)` — notes of the entry
with the matching identity key, `""` when no entry exists (§4.1). -/
def get_notes (v : Vocabulary) (w : String) : String :=
  match v.entries.find? (fun e => foldKey e.word == foldKey w) with
  | some e => e.notes
  | none => ""

/-- Modelled from the spec: the internal `(section, row)` coordinate of an
entry — section from its notes (plus one when the live-search pseudo-section
is present), row its index in the section's word list (§3, §4.3). -/
def word_coord (v : Vocabulary) (e : Entry) : Nat × Nat :=
  let base := if e.notes = "" then 1 else 0
  let sec := if v.query = "" then base else base + 1
  (sec, (list_words v base).indexOf e.word)

/-- Modelled from the spec: `Vocabulary.set_word(word, notes='')` — creates or
updates the entry for the exact display form, returning the new row's
`(section, row)` coordinate when a row was created (§4.1). -/
def set_word (v : Vocabulary) (w : String) (n : String := "") :
    Vocabulary × Option (Nat × Nat) :=
  if v.entries.any (fun e => e.word == w) then
    let upd := v.entries.map (fun e => if e.word == w then { e with notes := n } else e)
    ({ v with entries := upd }, none)
  else
    let v' := { v with entries := v.entries ++ [Entry.mk w n] }
    (v', some (word_coord v' (Entry.mk w n)))

/-- Whether an entry is a stale duplicate of `w`: same identity key, different
display form. -/
def dupPred (w : String) (e : Entry) : Bool :=
  foldKey e.word == foldKey w && e.word != w

/-- Modelled from the spec: `Vocabulary.del_dup_word(word, notes)` — removes a
stale duplicate whose identity key matches `word` but whose display case
differs, returning the duplicate's old `(section, row)` coordinate (§4.1
dedup invariant). -/
def del_dup_word (v : Vocabulary) (w : String) (n : String) :
    Vocabulary × Option (Nat × Nat) :=
  match v.entries.find? (dupPred w) with
  | some e =>
      let kept := v.entries.filter (fun e2 => !(dupPred w e2))
      ({ v with entries := kept }, some (word_coord v e))
  | none => (v, none)

/-- Modelled from the spec: `Vocabulary.set_query` stores the query text (§3). -/
def set_query (v : Vocabulary) (t : String) : Vocabulary := { v with query := t }

/-- Result of `TextViewDelegate.textview_did_end_editing`: the store state and
the argument lists the handler passes to `table.insert_rows` and
`table.delete_rows` (src lines 487, 490). -/
structure EditResult where
  vocab : Vocabulary
  inserts : List (Nat × Nat)
  deletes : List (Nat × Nat)
deriving DecidableEq, Repr

/-- Handler `TextViewDelegate.textview_did_end_editing` (src lines 481-490): saves the
edited notes with `set_word`, inserting the returned row, then removes a
display-case duplicate with `del_dup_word`, deleting its returned row.  Both
returned coordinates are passed to the table verbatim. -/
def textview_did_end_editing (v : Vocabulary) (w n : String) : EditResult :=
  let r1 := set_word v w n
  let ins := match r1.2 with | some c => [c] | none => []
  let r2 := del_dup_word r1.1 w n
  let del := match r2.2 with | some c => [c] | none => []
  ⟨r2.1, ins, del⟩

/-- A sequence of note edits, each applied through
`textview_did_end_editing`. -/
def applyEdits (v : Vocabulary) (ops : List (String × String)) : Vocabulary :=
  ops.foldl (fun acc p => (textview_did_end_editing acc p.1 p.2).vocab) v

/-- Two entries with distinct identity keys. -/
def keyNe (a b : Entry) : Prop := foldKey a.word ≠ foldKey b.word

/-- The store holds at most one entry per case-folded identity key. -/
def Dedup (v : Vocabulary) : Prop := v.entries.Pairwise keyNe

/-- From `LookupView.action_delete` (src lines 178-188): the argument passed to
`table.delete_rows`, with the documented `(section, row)` to `(row, section)`
fix applied (src lines 182-184). -/
def action_delete_rows_arg (rows : List (Nat × Nat)) : List (Nat × Nat) :=
  rows.map fun x => (x.2, x.1)

/-- State of a `WordView` (src lines 191-317): displayed word, notes text
view, blank placeholder, notes/definition segment index, rendered definition
HTML and share-button state. -/
structure WordViewState where
  word : String
  textview : String
  blankHidden : Bool
  segIndex : Nat
  html : String
  shareEnabled : Bool
deriving DecidableEq, Repr

/-- The rendered `loading.html` placeholder (src line 229), abstracted. -/
def loadingHtml : String := "loading"

/-- The store section `WordView.select_word` starts from: 0 when the notes
text view is non-empty, 1 otherwise (src lines 237-240). -/
def select_base (wv : WordViewState) : Nat := if wv.textview ≠ "" then 0 else 1

/-- The table section `WordView.select_word` targets: the base section shifted
by one when a query is active (src lines 242-243). -/
def select_sec (v : Vocabulary) (wv : WordViewState) : Nat :=
  if v.query ≠ "" then select_base wv + 1 else select_base wv

/-- The table row `WordView.select_word` targets: the word's index in the base
section's word list (src line 245). -/
def select_row (v : Vocabulary) (wv : WordViewState) : Nat :=
  (list_words v (select_base wv)).indexOf wv.word

/-- Method `WordView.select_word` (src lines 235-247): recomputes the displayed
word's table coordinate and assigns the table selection only when it differs
from the current one.  Returns the new selection and the number of selection
assignments performed. -/
def select_word (v : Vocabulary) (wv : WordViewState) (sel : List (Nat × Nat)) :
    List (Nat × Nat) × Nat :=
  if wv.word ∈ list_words v (select_base wv) then
    if sel ≠ [(select_sec v wv, select_row v wv)] then
      ([(select_sec v wv, select_row v wv)], 1)
    else (sel, 0)
  else (sel, 0)

/-- Result of `WordView.load_word`: the updated view, the table selection
after `select_word`, and the definition fetches initiated (the
`load_definition` call is queued in the background, src line 232). -/
structure LoadResult where
  wv : WordViewState
  sel : List (Nat × Nat)
  fetch : List String
deriving DecidableEq, Repr

/-- Method `WordView.load_word` (src lines 217-233): returns immediately when the
requested word is already displayed and `force` is unset; otherwise loads the
word, its notes and segment, initiates the definition fetch and syncs the
table selection. -/
def load_word (v : Vocabulary) (wv : WordViewState) (sel : List (Nat × Nat))
    (w : String) (force : Bool := false) : LoadResult :=
  if wv.word = w ∧ force = false then ⟨wv, sel, []⟩
  else
    let notes := get_notes v w
    let wv1 : WordViewState :=
      { word := w, textview := notes, blankHidden := true,
        segIndex := if notes ≠ "" then 0 else 1,
        html := if notes ≠ "" then wv.html else loadingHtml,
        shareEnabled := true }
    ⟨wv1, (select_word v wv1 sel).1, [w]⟩

/-- Whole-application state: the store, the regular-mode content column
(`word_view`), the shared compact detail view (`compact_word_view`), how many
times the compact view is pushed on `nav_column`, `AdaptiveView.open_words`,
`AdaptiveView.last_layout`, the externally-owned horizontal size class, the
lookup table's selection, content-column visibility, initiated definition
fetches and the search scope segmented control. -/
structure AppState where
  vocab : Vocabulary
  wordView : WordViewState
  compactWordView : WordViewState
  navPushes : Nat
  openWords : List String
  lastLayout : Option Nat
  sizeClass : Nat
  selectedRows : List (Nat × Nat)
  contentHidden : Bool
  pendingFetches : List String
  searchSegIndex : Nat
deriving DecidableEq, Repr

/-- The call `word_view.load_word` lifted to the application state. -/
def loadWordRegular (s : AppState) (w : String) (force : Bool := false) : AppState :=
  let r := load_word s.vocab s.wordView s.selectedRows w force
  { s with wordView := r.wv, selectedRows := r.sel,
           pendingFetches := s.pendingFetches ++ r.fetch }

/-- The call `compact_word_view.load_word` lifted to the application state. -/
def loadWordCompact (s : AppState) (w : String) (force : Bool := false) : AppState :=
  let r := load_word s.vocab s.compactWordView s.selectedRows w force
  { s with compactWordView := r.wv, selectedRows := r.sel,
           pendingFetches := s.pendingFetches ++ r.fetch }

/-- Function `load_word_view` (src lines 34-41): in regular size class, loads the word
into the content column; otherwise loads the compact view and pushes it onto
the navigation view; in both cases `open_words` becomes `[word]`. -/
def load_word_view (s : AppState) (w : String) : AppState :=
  let s1 :=
    if s.sizeClass = REGULAR then loadWordRegular s w
    else
      let s' := loadWordCompact s w
      { s' with navPushes := s'.navPushes + 1 }
  { s1 with openWords := [w] }

/-- Method `WordView.clear` (src lines 249-256) applied to the content column: shows
the blank placeholder, empties word, notes and HTML, disables sharing and
empties `open_words`. -/
def clear (s : AppState) : AppState :=
  let wv := { s.wordView with
                blankHidden := false,
                word := "",
                textview := "",
                html := "",
                shareEnabled := false }
  { s with wordView := wv, openWords := [] }

/-- One iteration of `AdaptiveView.set_compact`'s loop (src lines 395-397):
load the word into the compact view, then push it onto the navigation view. -/
def compact_step (st : AppState) (w : String) : AppState :=
  let st' := loadWordCompact st w
  { st' with navPushes := st'.navPushes + 1 }

/-- Method `AdaptiveView.set_compact` (src lines 384-398), geometry omitted: hides
the content column, replays every open word onto the compact navigation view
and records the compact layout. -/
def set_compact (s : AppState) : AppState :=
  let s1 := { s with contentHidden := true }
  let s2 := s1.openWords.foldl compact_step s1
  { s2 with lastLayout := some COMPACT }

/-- One iteration of `AdaptiveView.set_regular`'s loop (src lines 413-415):
pop the navigation view, then load the word into the content column. -/
def regular_step (st : AppState) (w : String) : AppState :=
  let st' := { st with navPushes := st.navPushes - 1 }
  loadWordRegular st' w

/-- Method `AdaptiveView.set_regular` (src lines 400-416), geometry omitted: shows
the content column and, when coming from compact, pops each open word off the
navigation view while loading it into the content column, then records the
regular layout. -/
def set_regular (s : AppState) : AppState :=
  let s1 := { s with contentHidden := false }
  let s2 :=
    if s1.lastLayout = some COMPACT then s1.openWords.foldl regular_step s1
    else s1
  { s2 with lastLayout := some REGULAR }

/-- Method `AdaptiveView.layout` (src lines 372-378): applies `set_regular` or
`set_compact` only when the current size class differs from the last applied
layout.  The Boolean reports whether a transition ran. -/
def layout (s : AppState) : AppState × Bool :=
  let n := s.sizeClass
  let p1 :=
    if n = REGULAR ∧ s.lastLayout ≠ some REGULAR then (set_regular s, true)
    else (s, false)
  let p2 :=
    if n = COMPACT ∧ p1.1.lastLayout ≠ some COMPACT then (set_compact p1.1, true)
    else (p1.1, false)
  (p2.1, p1.2 || p2.2)

/-- Opening a word from a compact state and then receiving a regular-size
layout notification (claim C5's first transition). -/
def openThenRegular (s : AppState) (w : String) : AppState :=
  (layout { load_word_view s w with sizeClass := REGULAR }).1

/-- The round trip of claim C5: open compact, go regular, go compact again. -/
def openRegularThenCompact (s : AppState) (w : String) : AppState :=
  (layout { openThenRegular s w with sizeClass := COMPACT }).1

/-- The result dictionary of the external `define.define` collaborator,
reduced to its definition list. -/
structure DefineResult where
  definitions : List String
deriving DecidableEq, Repr

/-- Rendering of `definition.html` by the external template engine, modelled
as a concrete injective-enough encoding. -/
def renderDefinition (d : DefineResult) : String :=
  "definition:" ++ String.intercalate "," d.definitions

/-- Method `WordView.load_definition` (src lines 258-269): completion of the
background fetch for `w`, applied to the content column.  The rendered HTML
is loaded into the pane; when the result has definitions and the word has no
notes, the word is saved to history and the returned row list is passed to
`table.insert_rows`. -/
def load_definition (s : AppState) (w : String) (d : DefineResult) :
    AppState × List (Nat × Nat) :=
  let s1 := { s with wordView := { s.wordView with html := renderDefinition d } }
  if d.definitions ≠ [] ∧ get_notes s.vocab w = "" then
    let r := set_word s.vocab w
    match r.2 with
    | some c => ({ s1 with vocab := r.1 }, [c])
    | none => ({ s1 with vocab := r.1 }, [])
  else (s1, [])

/-- Handler `SearchDelegate.textfield_did_change` (src lines 500-510) together with
`action_switch_search` (src lines 107-110): stores the query text and, when a
`#` occurs anywhere in it, selects the full-text segment and copies it into
the store's scope toggle. -/
def textfield_did_change (s : AppState) (text : String) : AppState :=
  let s1 := { s with vocab := set_query s.vocab text }
  if text.toList.contains '#' then
    let s2 := { s1 with searchSegIndex := 1 }
    { s2 with vocab := { s2.vocab with fulltext_toggle := s2.searchSegIndex != 0 } }
  else s1

/-- An empty `WordView`. -/
def emptyWV : WordViewState := ⟨"", "", false, 0, "", false⟩

/-- A compact-mode application state over an empty store. -/
def sampleState : AppState :=
  { vocab := ⟨[], "", false⟩, wordView := emptyWV, compactWordView := emptyWV,
    navPushes := 0, openWords := [], lastLayout := some COMPACT,
    sizeClass := COMPACT, selectedRows := [], contentHidden := true,
    pendingFetches := [], searchSegIndex := 0 }

/-- A regular-mode application state over an empty store. -/
def regularState : AppState :=
  { sampleState with sizeClass := REGULAR, lastLayout := some REGULAR,
                     contentHidden := false }

/-- A store holding the single history entry `"Cat"` (spec §8, dedup-on-edit
scenario). -/
def catVocab : Vocabulary := ⟨[⟨"Cat", ""⟩], "", false⟩

/-- A store holding the single history entry `"apple"`. -/
def c3v : Vocabulary := ⟨[⟨"apple", ""⟩], "", false⟩

/-- A word view displaying a word absent from the store. -/
def c3wv : WordViewState := ⟨"zzz", "", true, 1, "", true⟩

/-- A store with the annotated entry `"apple"`. -/
def appleVocab : Vocabulary := ⟨[⟨"apple", "tasty"⟩], "", false⟩

/-- A word view displaying the annotated word `"apple"`. -/
def appleWV : WordViewState := ⟨"apple", "tasty", true, 0, "", true⟩

/-- A regular-mode state whose pane displays `"other"` with empty HTML. -/
def c2State : AppState :=
  { regularState with wordView := ⟨"other", "", true, 1, "", true⟩,
                      openWords := ["other"] }

/-! Section: Basic facts about `select_word` -/

lemma select_word_of_not_mem {v : Vocabulary} {wv : WordViewState}
    (sel : List (Nat × Nat)) (hm : wv.word ∉ list_words v (select_base wv)) :
    select_word v wv sel = (sel, 0) := by
  unfold select_word
  rw [if_neg hm]

lemma select_word_of_mem_eq {v : Vocabulary} {wv : WordViewState}
    {sel : List (Nat × Nat)} (hm : wv.word ∈ list_words v (select_base wv))
    (hs : sel = [(select_sec v wv, select_row v wv)]) :
    select_word v wv sel = (sel, 0) := by
  unfold select_word
  rw [if_pos hm, if_neg (not_not_intro hs)]

lemma select_word_of_mem_ne {v : Vocabulary} {wv : WordViewState}
    {sel : List (Nat × Nat)} (hm : wv.word ∈ list_words v (select_base wv))
    (hs : sel ≠ [(select_sec v wv, select_row v wv)]) :
    select_word v wv sel = ([(select_sec v wv, select_row v wv)], 1) := by
  unfold select_word
  rw [if_pos hm, if_pos hs]

/-- Claim C3 (amended part): the selection-sync recomputes the top word's
table coordinate and requests its selection whenever the word resolves; when
it does not resolve, the handler returns without touching the selection — the
selection is left unchanged, not cleared. -/
theorem c3_selection_sync (v : Vocabulary) (wv : WordViewState)
    (sel : List (Nat × Nat)) :
    (wv.word ∈ list_words v (select_base wv) →
      (select_word v wv sel).1 = [(select_sec v wv, select_row v wv)]) ∧
    (wv.word ∉ list_words v (select_base wv) →
      select_word v wv sel = (sel, 0)) := by
  constructor
  · intro hm
    by_cases hs : sel = [(select_sec v wv, select_row v wv)]
    · rw [select_word_of_mem_eq hm hs]; exact hs
    · rw [select_word_of_mem_ne hm hs]
  · intro hm
    exact select_word_of_not_mem sel hm

/-- Claim C3 (counterexample): with the selection at `[(0, 0)]` and a
displayed word that resolves to no coordinate, `select_word` leaves the
selection as `[(0, 0)]` — it is not cleared as the claim states. -/
theorem c3_counterexample :
    (select_word c3v c3wv [(0, 0)]).1 = [(0, 0)] ∧
    ([(0, 0)] : List (Nat × Nat)) ≠ [] ∧
    c3wv.word ∉ list_words c3v (select_base c3wv) := by
  decide

/-- Claim C3 witness: both branches of the amended statement at concrete
inputs. -/
theorem c3_witness :
    (select_word appleVocab appleWV []).1 =
      [(select_sec appleVocab appleWV, select_row appleVocab appleWV)] ∧
    select_word appleVocab c3wv [(0, 0)] = ([(0, 0)], 0) := by
  refine ⟨(c3_selection_sync appleVocab appleWV []).1 (by decide),
          (c3_selection_sync appleVocab c3wv [(0, 0)]).2 (by decide)⟩

/-- Claim C4: running `select_word` twice with no intervening state change
performs at most one selection assignment, and the second run leaves the
selection where the first put it — the compare-before-set guard makes the
operation idempotent. -/
theorem c4_selection_idempotent (v : Vocabulary) (wv : WordViewState)
    (sel : List (Nat × Nat)) :
    (select_word v wv sel).2 + (select_word v wv (select_word v wv sel).1).2 ≤ 1 ∧
    (select_word v wv (select_word v wv sel).1).1 = (select_word v wv sel).1 := by
  by_cases hm : wv.word ∈ list_words v (select_base wv)
  · by_cases hs : sel = [(select_sec v wv, select_row v wv)]
    · rw [select_word_of_mem_eq hm hs]
      dsimp only
      rw [select_word_of_mem_eq hm hs]
      exact ⟨by simp, rfl⟩
    · rw [select_word_of_mem_ne hm hs]
      dsimp only
      rw [select_word_of_mem_eq hm rfl]
      exact ⟨by simp, rfl⟩
  · rw [select_word_of_not_mem sel hm]
    dsimp only
    rw [select_word_of_not_mem sel hm]
    exact ⟨by simp, rfl⟩

/-! Section: The background definition fetch -/

/-- Claim C2 (amended part): when the background fetch for `w` completes, its
rendered result is loaded into the detail pane unconditionally — no
comparison with the currently displayed word guards it — while the
save-to-history side effect alone is guarded (result has definitions and the
word has no notes). -/
theorem c2_fetch_applied_unconditionally (s : AppState) (w : String)
    (d : DefineResult) :
    (load_definition s w d).1.wordView.html = renderDefinition d ∧
    (load_definition s w d).1.wordView.word = s.wordView.word ∧
    ((d.definitions = [] ∨ get_notes s.vocab w ≠ "") →
      (load_definition s w d).1.vocab = s.vocab ∧ (load_definition s w d).2 = []) := by
  simp only [load_definition]
  by_cases h : d.definitions ≠ [] ∧ get_notes s.vocab w = ""
  · rw [if_pos h]
    rcases hr : (set_word s.vocab w).2 with _ | c <;>
      refine ⟨rfl, rfl, ?_⟩ <;> rintro (h1 | h2)
    · exact absurd h1 h.1
    · exact absurd h.2 h2
    · exact absurd h1 h.1
    · exact absurd h.2 h2
  · rw [if_neg h]
    exact ⟨rfl, rfl, fun _ => ⟨rfl, rfl⟩⟩

/-- Claim C2 (counterexample): the pane displays `"other"`, a fetch for `"w"`
completes, and its result is applied to the pane anyway — the claim's
compare-before-apply guard does not exist in the code. -/
theorem c2_counterexample :
    c2State.wordView.word ≠ "w" ∧
    (load_definition c2State "w" ⟨["x"]⟩).1.wordView.html =
      renderDefinition ⟨["x"]⟩ ∧
    c2State.wordView.html ≠ renderDefinition ⟨["x"]⟩ := by
  decide

/-- Claim C2 witness: the amended theorem applied at a concrete input with a
definition-less result, discharging its guard hypothesis. -/
theorem c2_witness :
    (load_definition sampleState "w" ⟨[]⟩).1.wordView.html =
      renderDefinition ⟨[]⟩ ∧
    (load_definition sampleState "w" ⟨[]⟩).1.vocab = sampleState.vocab := by
  have h := c2_fetch_applied_unconditionally sampleState "w" ⟨[]⟩
  exact ⟨h.1, (h.2.2 (Or.inl rfl)).1⟩

/-! Section: Search-scope marker -/

/-- Claim C9 (amended part): the full-text scope is forced exactly when `#`
occurs anywhere in the query text — not only as a leading character — and the
raw text, marker included, is stored as the query. -/
theorem c9_hash_forces_fulltext (s : AppState) (text : String) :
    (textfield_did_change s text).vocab.fulltext_toggle =
      (text.toList.contains '#' || s.vocab.fulltext_toggle) ∧
    (textfield_did_change s text).vocab.query = text := by
  unfold textfield_did_change set_query
  split
  · next h => rw [h]; exact ⟨rfl, rfl⟩
  · next h =>
    rw [Bool.not_eq_true] at h
    rw [h]
    exact ⟨rfl, rfl⟩

/-- Claim C9 (counterexample): the query `"a#b"` does not start with `#`, yet
the full-text scope is forced — the marker is honoured anywhere in the text,
not only as a leading character. -/
theorem c9_counterexample :
    "a#b".toList.head? ≠ some '#' ∧
    (textfield_did_change sampleState "a#b").vocab.fulltext_toggle = true ∧
    sampleState.vocab.fulltext_toggle = false := by
  decide

/-! Section: Coordinate conventions at the view boundary -/

/-- Claim C6: a concrete store coordinate that reaches `table.delete_rows`
through both boundary call sites.  The stale duplicate of `"cat"` sits at the
store coordinate `(1, 0)`; `textview_did_end_editing` passes `[(1, 0)]` to
`delete_rows` verbatim, while `action_delete` converts the same coordinate to
`(0, 1)` per its documented backwards-tuples fix — the two call sites apply
different conversions. -/
theorem c6_convention_mismatch :
    (textview_did_end_editing catVocab "cat" "meow").deletes = [(1, 0)] ∧
    action_delete_rows_arg [(1, 0)] = [(0, 1)] ∧
    ((1, 0) : Nat × Nat) ≠ (0, 1) := by
  decide

/-! Section: Projection lemmas for the view-loading operations -/

lemma load_word_wv_word (v : Vocabulary) (wv : WordViewState)
    (sel : List (Nat × Nat)) (w : String) (force : Bool) :
    (load_word v wv sel w force).wv.word = w := by
  unfold load_word
  split
  · next h => exact h.1
  · rfl

lemma load_word_skip (v : Vocabulary) {wv : WordViewState}
    (sel : List (Nat × Nat)) {w : String} (h : wv.word = w) :
    load_word v wv sel w false = ⟨wv, sel, []⟩ := by
  unfold load_word
  rw [if_pos ⟨h, rfl⟩]

lemma load_word_fetch (v : Vocabulary) {wv : WordViewState}
    (sel : List (Nat × Nat)) {w : String} (h : wv.word ≠ w) :
    (load_word v wv sel w false).fetch = [w] := by
  unfold load_word
  rw [if_neg (fun hc => h hc.1)]

lemma loadWordRegular_word (s : AppState) (w : String) (force : Bool) :
    (loadWordRegular s w force).wordView.word = w :=
  load_word_wv_word s.vocab s.wordView s.selectedRows w force

lemma loadWordCompact_word (s : AppState) (w : String) (force : Bool) :
    (loadWordCompact s w force).compactWordView.word = w :=
  load_word_wv_word s.vocab s.compactWordView s.selectedRows w force

lemma loadWordRegular_navPushes (s : AppState) (w : String) (force : Bool) :
    (loadWordRegular s w force).navPushes = s.navPushes := rfl

lemma loadWordRegular_openWords (s : AppState) (w : String) (force : Bool) :
    (loadWordRegular s w force).openWords = s.openWords := rfl

lemma loadWordRegular_lastLayout (s : AppState) (w : String) (force : Bool) :
    (loadWordRegular s w force).lastLayout = s.lastLayout := rfl

lemma loadWordRegular_sizeClass (s : AppState) (w : String) (force : Bool) :
    (loadWordRegular s w force).sizeClass = s.sizeClass := rfl

lemma loadWordCompact_navPushes (s : AppState) (w : String) (force : Bool) :
    (loadWordCompact s w force).navPushes = s.navPushes := rfl

lemma loadWordCompact_openWords (s : AppState) (w : String) (force : Bool) :
    (loadWordCompact s w force).openWords = s.openWords := rfl

lemma loadWordCompact_lastLayout (s : AppState) (w : String) (force : Bool) :
    (loadWordCompact s w force).lastLayout = s.lastLayout := rfl

lemma loadWordCompact_sizeClass (s : AppState) (w : String) (force : Bool) :
    (loadWordCompact s w force).sizeClass = s.sizeClass := rfl

lemma lwv_openWords (s : AppState) (w : String) :
    (load_word_view s w).openWords = [w] := rfl

lemma lwv_lastLayout (s : AppState) (w : String) :
    (load_word_view s w).lastLayout = s.lastLayout := by
  unfold load_word_view
  split <;> rfl

lemma lwv_sizeClass (s : AppState) (w : String) :
    (load_word_view s w).sizeClass = s.sizeClass := by
  unfold load_word_view
  split <;> rfl

lemma lwv_nav_regular (s : AppState) (w : String) (h : s.sizeClass = REGULAR) :
    (load_word_view s w).navPushes = s.navPushes := by
  unfold load_word_view
  rw [if_pos h]
  rfl

lemma lwv_nav_compact (s : AppState) (w : String) (h : s.sizeClass ≠ REGULAR) :
    (load_word_view s w).navPushes = s.navPushes + 1 := by
  unfold load_word_view
  rw [if_neg h]
  rfl

lemma lwv_word_regular (s : AppState) (w : String) (h : s.sizeClass = REGULAR) :
    (load_word_view s w).wordView.word = w := by
  unfold load_word_view
  rw [if_pos h]
  exact loadWordRegular_word s w false

lemma lwv_word_compact (s : AppState) (w : String) (h : s.sizeClass ≠ REGULAR) :
    (load_word_view s w).compactWordView.word = w := by
  unfold load_word_view
  rw [if_neg h]
  exact loadWordCompact_word s w false

/-! Section: Projection lemmas for the layout transitions -/

lemma foldl_pres {β : Type} (g : AppState → β) (f : AppState → String → AppState)
    (hf : ∀ st w, g (f st w) = g st) :
    ∀ (l : List String) (s : AppState), g (l.foldl f s) = g s := by
  intro l
  induction l with
  | nil => intro s; rfl
  | cons a t ih => intro s; rw [List.foldl_cons, ih, hf]

lemma compact_step_sizeClass (st : AppState) (w : String) :
    (compact_step st w).sizeClass = st.sizeClass := rfl

lemma compact_step_openWords (st : AppState) (w : String) :
    (compact_step st w).openWords = st.openWords := rfl

lemma compact_step_nav (st : AppState) (w : String) :
    (compact_step st w).navPushes = st.navPushes + 1 := rfl

lemma compact_step_word (st : AppState) (w : String) :
    (compact_step st w).compactWordView.word = w :=
  loadWordCompact_word st w false

lemma regular_step_sizeClass (st : AppState) (w : String) :
    (regular_step st w).sizeClass = st.sizeClass := rfl

lemma regular_step_openWords (st : AppState) (w : String) :
    (regular_step st w).openWords = st.openWords := rfl

lemma regular_step_nav (st : AppState) (w : String) :
    (regular_step st w).navPushes = st.navPushes - 1 := rfl

lemma regular_step_word (st : AppState) (w : String) :
    (regular_step st w).wordView.word = w :=
  load_word_wv_word _ _ _ w false

lemma set_compact_lastLayout (s : AppState) :
    (set_compact s).lastLayout = some COMPACT := rfl

lemma set_compact_sizeClass (s : AppState) :
    (set_compact s).sizeClass = s.sizeClass := by
  unfold set_compact
  exact foldl_pres (fun st => st.sizeClass) compact_step (fun st w => rfl) _ _

lemma set_compact_openWords (s : AppState) :
    (set_compact s).openWords = s.openWords := by
  unfold set_compact
  exact foldl_pres (fun st => st.openWords) compact_step (fun st w => rfl) _ _

lemma set_compact_run (s : AppState) :
    set_compact s
      = { List.foldl compact_step { s with contentHidden := true } s.openWords
          with lastLayout := some COMPACT } := rfl

lemma set_compact_single_nav {s : AppState} {W : String}
    (ho : s.openWords = [W]) : (set_compact s).navPushes = s.navPushes + 1 := by
  rw [set_compact_run, ho, List.foldl_cons, List.foldl_nil]
  exact compact_step_nav _ W

lemma set_compact_single_word {s : AppState} {W : String}
    (ho : s.openWords = [W]) : (set_compact s).compactWordView.word = W := by
  rw [set_compact_run, ho, List.foldl_cons, List.foldl_nil]
  exact compact_step_word _ W

lemma set_regular_lastLayout (s : AppState) :
    (set_regular s).lastLayout = some REGULAR := rfl

lemma set_regular_sizeClass (s : AppState) :
    (set_regular s).sizeClass = s.sizeClass := by
  simp only [set_regular]
  split
  · exact foldl_pres (fun st => st.sizeClass) regular_step (fun st w => rfl) _ _
  · rfl

lemma set_regular_openWords (s : AppState) :
    (set_regular s).openWords = s.openWords := by
  simp only [set_regular]
  split
  · exact foldl_pres (fun st => st.openWords) regular_step (fun st w => rfl) _ _
  · rfl

lemma set_regular_of_compact (s : AppState) (hl : s.lastLayout = some COMPACT) :
    set_regular s
      = { List.foldl regular_step { s with contentHidden := false } s.openWords
          with lastLayout := some REGULAR } := by
  simp only [set_regular]
  split
  · rfl
  · next h => exact absurd hl h

lemma set_regular_single_word {s : AppState} {W : String}
    (hl : s.lastLayout = some COMPACT) (ho : s.openWords = [W]) :
    (set_regular s).wordView.word = W := by
  rw [set_regular_of_compact s hl, ho, List.foldl_cons, List.foldl_nil]
  exact regular_step_word _ W

lemma set_regular_single_nav {s : AppState} {W : String}
    (hl : s.lastLayout = some COMPACT) (ho : s.openWords = [W]) :
    (set_regular s).navPushes = s.navPushes - 1 := by
  rw [set_regular_of_compact s hl, ho, List.foldl_cons, List.foldl_nil]
  exact regular_step_nav _ W

/-! Section: The layout dispatcher -/

lemma layout_noop (s : AppState) (h : s.lastLayout = some s.sizeClass) :
    layout s = (s, false) := by
  have h1 : ¬(s.sizeClass = REGULAR ∧ s.lastLayout ≠ some REGULAR) := by
    rintro ⟨hr, hn⟩; exact hn (by rw [h, hr])
  have h2 : ¬(s.sizeClass = COMPACT ∧ s.lastLayout ≠ some COMPACT) := by
    rintro ⟨hr, hn⟩; exact hn (by rw [h, hr])
  simp only [layout]
  rw [if_neg h1]
  split
  · next hc => exact absurd ⟨hc.1, hc.2⟩ h2
  · rfl

lemma layout_noop_of_neither (s : AppState) (h1 : s.sizeClass ≠ REGULAR)
    (h2 : s.sizeClass ≠ COMPACT) : layout s = (s, false) := by
  simp only [layout]
  rw [if_neg (show ¬(s.sizeClass = REGULAR ∧ s.lastLayout ≠ some REGULAR) from
        fun hc => h1 hc.1)]
  split
  · next hc => exact absurd hc.1 h2
  · rfl

lemma layout_run_regular (s : AppState) (hsz : s.sizeClass = REGULAR)
    (hl : s.lastLayout ≠ some REGULAR) : layout s = (set_regular s, true) := by
  simp only [layout]
  rw [if_pos (show s.sizeClass = REGULAR ∧ s.lastLayout ≠ some REGULAR from
        ⟨hsz, hl⟩)]
  split
  · next hc => exact absurd (hsz.symm.trans hc.1) (by decide)
  · rfl

lemma layout_run_compact (s : AppState) (hsz : s.sizeClass = COMPACT)
    (hl : s.lastLayout ≠ some COMPACT) : layout s = (set_compact s, true) := by
  simp only [layout]
  rw [if_neg (show ¬(s.sizeClass = REGULAR ∧ s.lastLayout ≠ some REGULAR) from
        fun hc => absurd (hsz.symm.trans hc.1) (by decide))]
  split
  · rfl
  · next hc => exact absurd ⟨hsz, hl⟩ hc

lemma layout_sizeClass (s : AppState) : (layout s).1.sizeClass = s.sizeClass := by
  by_cases h1 : s.sizeClass = REGULAR
  · by_cases hl : s.lastLayout = some REGULAR
    · rw [layout_noop s (by rw [hl, h1])]
    · rw [layout_run_regular s h1 hl]
      exact set_regular_sizeClass s
  · by_cases h2 : s.sizeClass = COMPACT
    · by_cases hl : s.lastLayout = some COMPACT
      · rw [layout_noop s (by rw [hl, h2])]
      · rw [layout_run_compact s h2 hl]
        exact set_compact_sizeClass s
    · rw [layout_noop_of_neither s h1 h2]

lemma layout_lastLayout (s : AppState)
    (h : s.sizeClass = REGULAR ∨ s.sizeClass = COMPACT) :
    (layout s).1.lastLayout = some s.sizeClass := by
  rcases h with h | h
  · by_cases hl : s.lastLayout = some REGULAR
    · rw [layout_noop s (by rw [hl, h])]
      rw [hl, h]
    · rw [layout_run_regular s h hl, h]
      exact set_regular_lastLayout s
  · by_cases hl : s.lastLayout = some COMPACT
    · rw [layout_noop s (by rw [hl, h])]
      rw [hl, h]
    · rw [layout_run_compact s h hl, h]
      exact set_compact_lastLayout s

/-- Claim C7: a second layout notification carrying the same size class is a
no-op — the dispatcher compares the size class with the last applied layout
and runs no transition, leaving the state unchanged. -/
theorem c7_layout_duplicate_noop (s : AppState) :
    layout (layout s).1 = ((layout s).1, false) := by
  by_cases h : s.sizeClass = REGULAR ∨ s.sizeClass = COMPACT
  · refine layout_noop _ ?_
    rw [layout_sizeClass, layout_lastLayout s h]
  · push_neg at h
    have h1 : layout s = (s, false) := layout_noop_of_neither s h.1 h.2
    rw [h1]
    exact layout_noop_of_neither s h.1 h.2

/-- Claim C8: `load_word_view` in regular size class replaces the open-word
stack by `[w]`, reloads the content column in place without pushing a
navigation screen, and skips the reload (view state and initiated fetches
unchanged) exactly when `w` is already displayed; in compact size class it
loads the compact view and pushes a new detail screen. -/
theorem c8_open_word (s : AppState) (w : String) :
    (s.sizeClass = REGULAR →
      (load_word_view s w).openWords = [w] ∧
      (load_word_view s w).navPushes = s.navPushes ∧
      (load_word_view s w).wordView.word = w ∧
      (s.wordView.word = w →
        (load_word_view s w).wordView = s.wordView ∧
        (load_word_view s w).pendingFetches = s.pendingFetches) ∧
      (s.wordView.word ≠ w →
        (load_word_view s w).pendingFetches = s.pendingFetches ++ [w])) ∧
    (s.sizeClass ≠ REGULAR →
      (load_word_view s w).openWords = [w] ∧
      (load_word_view s w).navPushes = s.navPushes + 1 ∧
      (load_word_view s w).compactWordView.word = w) := by
  constructor
  · intro h
    refine ⟨lwv_openWords s w, lwv_nav_regular s w h, lwv_word_regular s w h, ?_, ?_⟩
    · intro hw
      simp only [load_word_view, loadWordRegular, if_pos h]
      rw [load_word_skip s.vocab s.selectedRows hw]
      exact ⟨rfl, List.append_nil _⟩
    · intro hw
      simp only [load_word_view, loadWordRegular, if_pos h]
      rw [load_word_fetch s.vocab s.selectedRows hw]
  · intro h
    exact ⟨lwv_openWords s w, lwv_nav_compact s w h, lwv_word_compact s w h⟩

/-- Claim C8 witness: the theorem applied in both size classes at concrete
states. -/
theorem c8_witness :
    (load_word_view regularState "w").openWords = ["w"] ∧
    (load_word_view regularState "w").navPushes = regularState.navPushes ∧
    (load_word_view sampleState "w").navPushes = sampleState.navPushes + 1 := by
  have h1 := (c8_open_word regularState "w").1 rfl
  have h2 := (c8_open_word sampleState "w").2 (by decide)
  exact ⟨h1.1, h1.2.1, h2.2.1⟩

/-! Section: The layout round trip -/

/-- Claim C5: opening `W` from a compact state with an empty navigation
stack, then transitioning to regular, shows `W` in the content column with
every pushed screen popped; transitioning back to compact re-pushes exactly
one screen showing `W`, with `open_words` equal to `[W]` throughout. -/
theorem c5_layout_round_trip (s : AppState) (W : String)
    (hlast : s.lastLayout = some COMPACT) (hnav : s.navPushes = 0)
    (hsz : s.sizeClass ≠ REGULAR) :
    (openThenRegular s W).wordView.word = W ∧
    (openThenRegular s W).navPushes = 0 ∧
    (openThenRegular s W).openWords = [W] ∧
    (openThenRegular s W).lastLayout = some REGULAR ∧
    (openRegularThenCompact s W).openWords = [W] ∧
    (openRegularThenCompact s W).navPushes = 1 ∧
    (openRegularThenCompact s W).compactWordView.word = W ∧
    (openRegularThenCompact s W).lastLayout = some COMPACT := by
  have h1l : ({ load_word_view s W with sizeClass := REGULAR } : AppState).lastLayout
      = some COMPACT := by
    show (load_word_view s W).lastLayout = some COMPACT
    rw [lwv_lastLayout, hlast]
  have h1o : ({ load_word_view s W with sizeClass := REGULAR } : AppState).openWords
      = [W] := lwv_openWords s W
  have h1n : ({ load_word_view s W with sizeClass := REGULAR } : AppState).navPushes
      = 1 := by
    show (load_word_view s W).navPushes = 1
    rw [lwv_nav_compact s W hsz, hnav]
  have hOR : openThenRegular s W
      = set_regular { load_word_view s W with sizeClass := REGULAR } := by
    unfold openThenRegular
    rw [layout_run_regular _ rfl (by rw [h1l]; decide)]
  have h2w : (openThenRegular s W).wordView.word = W := by
    rw [hOR]; exact set_regular_single_word h1l h1o
  have h2n : (openThenRegular s W).navPushes = 0 := by
    rw [hOR, set_regular_single_nav h1l h1o, h1n]
  have h2o : (openThenRegular s W).openWords = [W] := by
    rw [hOR, set_regular_openWords, h1o]
  have h2l : (openThenRegular s W).lastLayout = some REGULAR := by
    rw [hOR]; exact set_regular_lastLayout _
  have h2'l : ({ openThenRegular s W with sizeClass := COMPACT } : AppState).lastLayout
      = some REGULAR := h2l
  have h2'o : ({ openThenRegular s W with sizeClass := COMPACT } : AppState).openWords
      = [W] := h2o
  have h2'n : ({ openThenRegular s W with sizeClass := COMPACT } : AppState).navPushes
      = 0 := h2n
  have hOC : openRegularThenCompact s W
      = set_compact { openThenRegular s W with sizeClass := COMPACT } := by
    unfold openRegularThenCompact
    rw [layout_run_compact _ rfl (by rw [h2'l]; decide)]
  refine ⟨h2w, h2n, h2o, h2l, ?_, ?_, ?_, ?_⟩
  · rw [hOC, set_compact_openWords, h2'o]
  · rw [hOC, set_compact_single_nav h2'o, h2'n]
  · rw [hOC]; exact set_compact_single_word h2'o
  · rw [hOC]; exact set_compact_lastLayout _

/-- Claim C5 witness: the round trip for `"banana"` from a concrete compact
state. -/
theorem c5_witness :
    (openThenRegular sampleState "banana").wordView.word = "banana" ∧
    (openRegularThenCompact sampleState "banana").openWords = ["banana"] ∧
    (openRegularThenCompact sampleState "banana").navPushes = 1 := by
  have h := c5_layout_round_trip sampleState "banana" rfl rfl (by decide)
  exact ⟨h.1, h.2.2.2.2.1, h.2.2.2.2.2.1⟩

/-! Section: The open-word stack -/

/-- Claim C10: every completed `load_word_view` leaves `open_words` as the
singleton `[word]` in both layout modes, and clearing the detail pane resets
it to the empty list. -/
theorem c10_open_words_singleton :
    (∀ (s : AppState) (w : String), (load_word_view s w).openWords = [w]) ∧
    (∀ s : AppState, (clear s).openWords = []) := by
  exact ⟨fun s w => rfl, fun s => rfl⟩

/-! Section: Identity-key uniqueness (the dedup invariant) -/

lemma dedup_unique :
    ∀ {l : List Entry}, l.Pairwise keyNe →
      ∀ {a b : Entry}, a ∈ l → b ∈ l → foldKey a.word = foldKey b.word → a = b := by
  intro l
  induction l with
  | nil => intro _ a b ha; cases ha
  | cons x xs ih =>
    intro hl a b ha hb hk
    rcases List.mem_cons.mp ha with rfl | ha'
    · rcases List.mem_cons.mp hb with rfl | hb'
      · rfl
      · exact absurd hk ((List.pairwise_cons.mp hl).1 b hb')
    · rcases List.mem_cons.mp hb with rfl | hb'
      · exact absurd hk.symm ((List.pairwise_cons.mp hl).1 a ha')
      · exact ih (List.pairwise_cons.mp hl).2 ha' hb' hk

lemma dupPred_iff {w : String} {e : Entry} :
    dupPred w e = true ↔ foldKey e.word = foldKey w ∧ e.word ≠ w := by
  simp [dupPred]

lemma not_dupPred {w : String} {e : Entry} (h : dupPred w e = false) :
    foldKey e.word = foldKey w → e.word = w := by
  intro hk
  by_contra hne
  have := dupPred_iff.mpr ⟨hk, hne⟩
  rw [h] at this
  exact Bool.false_ne_true this

lemma any_exact_false_mem {v : Vocabulary} {w : String}
    (h : v.entries.any (fun e => e.word == w) = false) :
    ∀ a ∈ v.entries, a.word ≠ w := by
  intro a ha
  rw [List.any_eq_false] at h
  have := h a ha
  simpa using this

lemma upd_word (w n : String) (e : Entry) :
    (if e.word == w then { e with notes := n } else e).word = e.word := by
  split <;> rfl

lemma pairwise_upd {l : List Entry} (w n : String) (h : l.Pairwise keyNe) :
    (l.map (fun e => if e.word == w then { e with notes := n } else e)).Pairwise
      keyNe := by
  rw [List.pairwise_map]
  refine h.imp ?_
  intro a b hab
  unfold keyNe
  rw [upd_word, upd_word]
  exact hab

lemma set_word_update {v : Vocabulary} {w n : String}
    (h : v.entries.any (fun e => e.word == w) = true) :
    set_word v w n =
      ({ v with entries := v.entries.map (fun e => if e.word == w then { e with notes := n } else e) }, none) := by
  unfold set_word
  rw [if_pos h]

lemma set_word_insert {v : Vocabulary} {w n : String}
    (h : v.entries.any (fun e => e.word == w) = false) :
    set_word v w n =
      ({ v with entries := v.entries ++ [Entry.mk w n] },
       some (word_coord { v with entries := v.entries ++ [Entry.mk w n] } (Entry.mk w n))) := by
  unfold set_word
  rw [if_neg (by rw [h]; exact Bool.false_ne_true)]

lemma del_dup_found {v : Vocabulary} {w n : String} {e : Entry}
    (h : v.entries.find? (dupPred w) = some e) :
    del_dup_word v w n =
      ({ v with entries := v.entries.filter (fun e2 => !(dupPred w e2)) },
       some (word_coord v e)) := by
  unfold del_dup_word
  rw [h]

lemma del_dup_none {v : Vocabulary} {w n : String}
    (h : v.entries.find? (dupPred w) = none) :
    del_dup_word v w n = (v, none) := by
  unfold del_dup_word
  rw [h]

lemma end_editing_vocab (v : Vocabulary) (w n : String) :
    (textview_did_end_editing v w n).vocab
      = (del_dup_word (set_word v w n).1 w n).1 := rfl

lemma end_editing_inserts (v : Vocabulary) (w n : String) :
    (textview_did_end_editing v w n).inserts
      = match (set_word v w n).2 with | some c => [c] | none => [] := rfl

lemma end_editing_deletes (v : Vocabulary) (w n : String) :
    (textview_did_end_editing v w n).deletes
      = match (del_dup_word (set_word v w n).1 w n).2 with
        | some c => [c] | none => [] := rfl

lemma dedup_del_dup (u : Vocabulary) (hu : u.entries.Pairwise keyNe)
    (w n : String) : (del_dup_word u w n).1.entries.Pairwise keyNe := by
  cases hf : u.entries.find? (dupPred w) with
  | none =>
    rw [del_dup_none hf]
    exact hu
  | some e =>
    rw [del_dup_found hf]
    exact hu.sublist (List.filter_sublist _)

lemma filter_keep_new {w n : String} :
    ([Entry.mk w n] : List Entry).filter (fun e2 => !(dupPred w e2)) = [Entry.mk w n] := by
  simp [dupPred]

lemma dedup_end_editing (v : Vocabulary) (hv : Dedup v) (w n : String) :
    Dedup (textview_did_end_editing v w n).vocab := by
  show ((del_dup_word (set_word v w n).1 w n).1).entries.Pairwise keyNe
  cases hany : v.entries.any (fun e => e.word == w) with
  | true =>
    rw [set_word_update hany]
    exact dedup_del_dup _ (pairwise_upd w n hv) w n
  | false =>
    rw [set_word_insert hany]
    show ((del_dup_word { v with entries := v.entries ++ [Entry.mk w n] } w n).1).entries.Pairwise keyNe
    cases hf : (v.entries ++ [Entry.mk w n]).find? (dupPred w) with
    | none =>
      rw [del_dup_none hf]
      show (v.entries ++ [Entry.mk w n]).Pairwise keyNe
      rw [List.pairwise_append]
      refine ⟨hv, by simp, ?_⟩
      intro a ha b hb
      rw [List.mem_singleton] at hb
      subst hb
      intro hk
      rw [List.find?_eq_none] at hf
      have hnd : dupPred w a = false := by
        have := hf a (List.mem_append_left _ ha)
        simpa using this
      exact any_exact_false_mem hany a ha (not_dupPred hnd hk)
    | some e =>
      rw [del_dup_found hf]
      show ((v.entries ++ [Entry.mk w n]).filter (fun e2 => !(dupPred w e2))).Pairwise keyNe
      rw [List.filter_append, filter_keep_new, List.pairwise_append]
      refine ⟨hv.sublist (List.filter_sublist _), by simp, ?_⟩
      intro a ha b hb
      rw [List.mem_singleton] at hb
      subst hb
      intro hk
      have hmem := List.mem_filter.mp ha
      have hnd : dupPred w a = false := by simpa using hmem.2
      exact any_exact_false_mem hany a hmem.1 (not_dupPred hnd hk)

lemma dedup_applyEdits :
    ∀ (ops : List (String × String)) (v : Vocabulary),
      Dedup v → Dedup (applyEdits v ops) := by
  intro ops
  induction ops with
  | nil => intro v hv; exact hv
  | cons p t ih =>
    intro v hv
    show Dedup (applyEdits (textview_did_end_editing v p.1 p.2).vocab t)
    exact ih _ (dedup_end_editing v hv p.1 p.2)

/-- Claim C1: from a deduplicated store, every sequence of note edits through
`textview_did_end_editing` keeps at most one entry per case-folded identity
key; and a single edit of `w` in the presence of a stale duplicate `e` (same
key, different display case) keeps the newly written display form with the
new notes, removes `e`, and passes the duplicate's old coordinate to
`delete_rows` in addition to the insert event. -/
theorem c1_identity_key_uniqueness (v : Vocabulary) (hv : Dedup v) :
    (∀ ops : List (String × String), Dedup (applyEdits v ops)) ∧
    (∀ w n e, e ∈ v.entries → foldKey e.word = foldKey w → e.word ≠ w →
      Dedup (textview_did_end_editing v w n).vocab ∧
      Entry.mk w n ∈ (textview_did_end_editing v w n).vocab.entries ∧
      e ∉ (textview_did_end_editing v w n).vocab.entries ∧
      (∀ e2 ∈ (textview_did_end_editing v w n).vocab.entries,
          foldKey e2.word = foldKey w → e2 = Entry.mk w n) ∧
      (textview_did_end_editing v w n).deletes
        = [word_coord (set_word v w n).1 e] ∧
      (textview_did_end_editing v w n).inserts
        = [word_coord (set_word v w n).1 (Entry.mk w n)]) := by
  constructor
  · intro ops
    exact dedup_applyEdits ops v hv
  · intro w n e he hk hne
    have hany : v.entries.any (fun x => x.word == w) = false := by
      rw [List.any_eq_false]
      intro x hx
      simp only [beq_iff_eq]
      intro hxw
      have hxe : x = e := dedup_unique hv hx he (by rw [hxw, hk])
      exact hne (by rw [← hxe]; exact hxw)
    have hsw := set_word_insert (v := v) (w := w) (n := n) hany
    have hv1e : (set_word v w n).1 = { v with entries := v.entries ++ [Entry.mk w n] } := by
      rw [hsw]
    have hpe : dupPred w e = true := dupPred_iff.mpr ⟨hk, hne⟩
    have hsome : ((v.entries ++ [Entry.mk w n]).find? (dupPred w)).isSome :=
      List.find?_isSome.mpr ⟨e, List.mem_append_left _ he, hpe⟩
    obtain ⟨e', hf⟩ := Option.isSome_iff_exists.mp hsome
    have hpe' : dupPred w e' = true := List.find?_some hf
    have hmem' : e' ∈ v.entries ++ [Entry.mk w n] := List.mem_of_find?_eq_some hf
    have he'v : e' ∈ v.entries := by
      rcases List.mem_append.mp hmem' with h' | h'
      · exact h'
      · rw [List.mem_singleton] at h'
        subst h'
        rcases dupPred_iff.mp hpe' with ⟨_, hww⟩
        exact absurd rfl hww
    have he'e : e' = e := dedup_unique hv he'v he (by
      rcases dupPred_iff.mp hpe' with ⟨hk', _⟩
      rw [hk', hk])
    subst he'e
    have hdd := del_dup_found
      (v := { v with entries := v.entries ++ [Entry.mk w n] }) (n := n) hf
    have hvocab : (textview_did_end_editing v w n).vocab
        = { v with entries :=
            (v.entries ++ [Entry.mk w n]).filter (fun e2 => !(dupPred w e2)) } := by
      rw [end_editing_vocab, hsw]
      show (del_dup_word { v with entries := v.entries ++ [Entry.mk w n] } w n).1 = _
      rw [hdd]
    have hsplit : (v.entries ++ [Entry.mk w n]).filter (fun e2 => !(dupPred w e2))
        = v.entries.filter (fun e2 => !(dupPred w e2)) ++ [Entry.mk w n] := by
      rw [List.filter_append, filter_keep_new]
    have hE : (textview_did_end_editing v w n).vocab.entries
        = v.entries.filter (fun e2 => !(dupPred w e2)) ++ [Entry.mk w n] := by
      rw [hvocab]
      exact hsplit
    refine ⟨dedup_end_editing v hv w n, ?_, ?_, ?_, ?_, ?_⟩
    · rw [hE]
      exact List.mem_append_right _ (List.mem_singleton.mpr rfl)
    · rw [hE]
      intro hmem
      rcases List.mem_append.mp hmem with h' | h'
      · have hbad := (List.mem_filter.mp h').2
        rw [hpe] at hbad
        exact absurd hbad (by decide)
      · rw [List.mem_singleton] at h'
        exact hne (by rw [h'])
    · intro e2 he2 hk2
      rw [hE] at he2
      rcases List.mem_append.mp he2 with h' | h'
      · exfalso
        have hnd : dupPred w e2 = false := by
          simpa using (List.mem_filter.mp h').2
        exact any_exact_false_mem hany e2 (List.mem_filter.mp h').1
          (not_dupPred hnd hk2)
      · exact List.mem_singleton.mp h'
    · rw [hv1e]
      rw [end_editing_deletes, hsw]
      show (match (del_dup_word { v with entries := v.entries ++ [Entry.mk w n] } w n).2 with
            | some c => [c] | none => []) = _
      rw [hdd]
    · rw [hv1e]
      rw [end_editing_inserts, hsw]

/-- Claim C1 witness: the spec's dedup-on-edit scenario — store `{"Cat": ""}`
then edit notes for `"cat"`: the entry `("cat", "meow")` is kept and a delete
event is emitted for the stale `"Cat"`. -/
theorem c1_witness :
    Dedup catVocab ∧
    (⟨"cat", "meow"⟩ : Entry) ∈
      (textview_did_end_editing catVocab "cat" "meow").vocab.entries ∧
    (textview_did_end_editing catVocab "cat" "meow").deletes ≠ [] := by
  have hd : Dedup catVocab := by
    show List.Pairwise keyNe [⟨"Cat", ""⟩]
    exact List.Pairwise.cons (fun b hb => absurd hb (List.not_mem_nil b))
      List.Pairwise.nil
  have h := (c1_identity_key_uniqueness catVocab hd).2 "cat" "meow" ⟨"Cat", ""⟩
    (List.mem_singleton.mpr rfl) (by decide) (by decide)
  refine ⟨hd, h.2.1, ?_⟩
  rw [h.2.2.2.2.1]
  simp

end WordRoom
